import Mathlib

/-!
# gtcp: length-prefixed framing over a TCP connection (`conn.go`)

A shallow embedding of the framing code of `conn.go`:

* `Write` puts a 4-byte little-endian length header in front of the payload
  and hands header and payload to the socket in one write;
* `split` is the split function given to the `bufio.Scanner` of `Scan`;
* `Scan` runs the scanner over the bytes read from the socket and hands every
  token to the data channel; the scanner is the one `bufio.NewScanner` makes,
  with its buffer of at most 64 KiB;
* `Close` and `CloseOnce` end the life cycle of a connection.

Go byte slices are lists of bytes, Go's `int` and `uint32` are natural numbers
or integers with an explicit `% 2 ^ 32` where the source converts, a Go run-time
panic is `none`.  The three channels of a connection are logs of the messages
handed over (every send meets a receiver), and the socket is seen through the
buffers written to it and the number of times it was closed.
-/

set_option linter.unusedVariables false

namespace Gtcp

/-- A Go `byte`. -/
abbrev Byte := Fin 256

/-- The constant `headerLen` of `conn.go`. -/
def headerLen : Nat := 4

/-- The state of a `TCPConn` box.

`scope` stands for the fields `Context` and `cancel`: `none` before any
`InstallCtx` (both fields are nil), `some fired` afterwards, where `fired`
tells whether the context is done. -/
structure TCPConn where
  /-- Context and cancel function. -/
  scope : Option Bool
  /-- What `RemoteAddr().String()` gives. -/
  remoteAddr : String
  /-- Buffers passed to the socket's `Write`, oldest first. -/
  written : List (List Byte)
  /-- Number of calls of the socket's `Close`. -/
  sockCloses : Nat
  /-- Number of calls of `SendConnToPool` with this box. -/
  poolReturns : Nat
  /-- Messages handed over on the `data` channel, oldest first. -/
  data : List (List Byte)
  /-- Messages handed over on the `info` channel, oldest first. -/
  info : List String
  /-- Messages handed over on the `error` channel, oldest first. -/
  error : List String
  deriving DecidableEq

/-- The four bytes of `binary.LittleEndian.PutUint32(head, v)` on a fresh
4-byte slice `head`. -/
def PutUint32 (v : Nat) : List Byte :=
  [Fin.ofNat v, Fin.ofNat (v / 2 ^ 8), Fin.ofNat (v / 2 ^ 16), Fin.ofNat (v / 2 ^ 24)]

/-- The value `binary.Read(buf, binary.LittleEndian, &lhead)` gives `lhead` on a
reader over `data`:
the first four bytes as a little-endian `uint32`.  With fewer than four bytes
the read fails and `lhead` keeps its zero value. -/
def readUint32 : List Byte → Nat
  | b0 :: b1 :: b2 :: b3 :: _ => b0.val + b1.val * 2 ^ 8 + b2.val * 2 ^ 16 + b3.val * 2 ^ 24
  | _ => 0

/-- The method `TCPConn.Close`: calls `t.cancel()`, which is a nil function (a panic)
when no scope was installed. -/
def Close (t : TCPConn) : Option TCPConn :=
  match t.scope with
  | none => none
  | some _ => some { t with scope := some true }

/-- The method `TCPConn.InstallCtx`: cancels the previous scope, if any, and installs a
fresh one derived from the parent context; `parentDone` tells whether the
parent is done already, in which case the new scope is done from the start. -/
def InstallCtx (t : TCPConn) (parentDone : Bool) : TCPConn :=
  { t with scope := some parentDone }

/-- Modelled from the spec: `SendConnToPool` is declared outside `conn.go`;
the spec's `release(wrapper)` is "invoked once per completed teardown; the
pool decides whether to retain the wrapper".  Only the call is recorded. -/
def SendConnToPool (t : TCPConn) : TCPConn :=
  { t with poolReturns := t.poolReturns + 1 }

/-- The method `TCPConn.CloseOnce`; `closeErr` is what the socket's `Close` returns. -/
def CloseOnce (t : TCPConn) (closeErr : Option String) : Option TCPConn :=
  match Close t with
  | none => none
  | some t1 =>
    let t2 := { t1 with sockCloses := t1.sockCloses + 1 }
    let t3 :=
      match closeErr with
      | some e => { t2 with error := t2.error ++ [e] }
      | none => t2
    some (SendConnToPool t3)

/-- What `TCPConn.Write` returns, next to the state of the box. -/
structure WriteResult where
  conn : TCPConn
  n : Int
  err : Option String
  deriving DecidableEq

/-- The method `TCPConn.Write`; `sock buf` is what the socket's `Write` returns for the
buffer `buf`: the count and the error. -/
def Write (t : TCPConn) (data : List Byte) (sock : List Byte → Int × Option String) :
    WriteResult :=
  let length := data.length % 2 ^ 32
  let head := PutUint32 length
  let buf := head ++ data
  let t1 := { t with written := t.written ++ [buf] }
  match sock buf with
  | (n, some e) => ⟨t1, n, some e⟩
  | (n, none) => ⟨t1, n - (headerLen : Int), none⟩

/-- The three results of `split`. -/
structure SplitResult where
  adv : Nat
  token : Option (List Byte)
  err : Option String
  deriving DecidableEq

/-- The text of the error of `split`, as `fmt.Sprintf` makes it from the remote
address; `split` hands this text to `fmt.Errorf` as a format, which leaves it
as it is as long as the address holds no `%`. -/
def tooLarge (addr : String) : String :=
  "Read Error. Addr: " ++ addr ++ "; Err: too large data!"

/-- The method `TCPConn.split`, the split function of the scanner. -/
def split (t : TCPConn) (data : List Byte) (atEOF : Bool) : Option (TCPConn × SplitResult) :=
  let length := data.length
  if length < headerLen then
    some (t, ⟨0, none, none⟩)
  else if length > 1048576 then
    match Close t with
    | none => none
    | some t1 => some (t1, ⟨0, none, some (tooLarge t1.remoteAddr)⟩)
  else
    let lhead := readUint32 data
    let tail := length - headerLen
    if lhead > 1048576 then
      match Close t with
      | none => none
      | some t1 => some (t1, ⟨0, none, some (tooLarge t1.remoteAddr)⟩)
    else if tail % 2 ^ 32 < lhead then
      some (t, ⟨0, none, none⟩)
    else
      let adv := headerLen + lhead
      some (t, ⟨adv, some (data.take adv), none⟩)

/-- The method `TCPConn.ReadData` on the message `data` received from the data channel:
`data[headerLen:]`, a panic on a message shorter than the header. -/
def ReadData (data : List Byte) : Option (List Byte) :=
  if data.length < headerLen then none else some (data.drop headerLen)

/-- Why the loop of `Scan` came to its end. -/
inductive Stop where
  /-- The scanner found the end of the stream and no further token:
  `scanner.Scan()` is false and `scanner.Err()` is nil. -/
  | ended
  /-- The scanner stopped on the error `e`: `scanner.Err()` gives `e`. -/
  | failed (e : String)
  /-- The loop of `Scan` found the context done and left. -/
  | cancelled
  /-- The fuel of the model ran out (never with the fuel `scanReads` gives). -/
  | fuel
  deriving DecidableEq

/-- The text `Scan` sends on the info channel when it finds the context done. -/
def connDone (addr : String) : String := "Conn Done. Addr: " ++ addr

/-- The constant `bufio.MaxScanTokenSize`, the size the buffer of a scanner
made by `bufio.NewScanner` may grow to; `Scan` never calls `scanner.Buffer`. -/
def maxScanTokenSize : Nat := 64 * 1024

/-- The constant `startBufSize` of `bufio`, the first size of the buffer. -/
def startBufSize : Nat := 4096

/-- The largest `int` of Go on a 64-bit platform. -/
def maxInt : Nat := 2 ^ 63 - 1

/-- The text of `bufio.ErrTooLong`. -/
def ErrTooLong : String := "bufio.Scanner: token too long"

/-- The text of `bufio.ErrAdvanceTooFar`. -/
def ErrAdvanceTooFar : String := "bufio.Scanner: SplitFunc returns advance count beyond input"

/-- The state of the `bufio.Scanner` that `Scan` makes with
`bufio.NewScanner(t)`: `cap` is `len(s.buf)`, `start` is `s.start`, `held` is
`s.buf[s.start:s.end]`, so that `s.end` is `start + held.length`, and `atEOF`
tells that a read of the socket has returned `io.EOF` (`s.err != nil`). -/
structure Scanner where
  cap : Nat
  start : Nat
  held : List Byte
  atEOF : Bool
  deriving DecidableEq

/-- The scanner as `bufio.NewScanner` returns it: no buffer yet. -/
def NewScanner : Scanner := ⟨0, 0, [], false⟩

/-- A call `Read(p)` of the socket with `len(p) = k`, where `rs` are the
pieces in which the bytes of the stream arrive, in order: the call waits for a
piece with bytes in it and returns at most `k` bytes of it, the rest of the
piece stays for the next call; after the last piece the call returns
`io.EOF`, here `none`. -/
def sockRead (k : Nat) : List (List Byte) → Option (List Byte × List (List Byte))
  | [] => none
  | [] :: rs => sockRead k rs
  | (b :: c) :: rs => some ((b :: c).take k, (b :: c).drop k :: rs)

/-- The part of `Scanner.Scan` that makes room before a read: the held bytes
are moved to the front of the buffer when the buffer is full behind them or
more than half of it is free in front of them; a buffer that is full then is
doubled, from `startBufSize` up to `maxScanTokenSize`, and when it has that
size already the scanner gives up with `ErrTooLong`, here `none`. -/
def makeRoom (sc : Scanner) : Option Scanner :=
  let sc1 :=
    if sc.start > 0 ∧ (sc.start + sc.held.length = sc.cap ∨ sc.start > sc.cap / 2) then
      { sc with start := 0 }
    else sc
  if sc1.start + sc1.held.length = sc1.cap then
    if sc1.cap ≥ maxScanTokenSize ∨ sc1.cap > maxInt / 2 then none
    else
      let newSize := sc1.cap * 2
      let newSize := if newSize = 0 then startBufSize else newSize
      let newSize := min newSize maxScanTokenSize
      some { sc1 with cap := newSize, start := 0 }
  else some sc1

/-- What the first part of `Scanner.Scan` comes to, the call of the split
function on the bytes held. -/
inductive Tried where
  /-- A run-time panic. -/
  | panicked
  /-- The scanner stops, with an error. -/
  | halt (t : TCPConn) (s : Stop)
  /-- The split function returned the token `tok`: `scanner.Scan()` is true. -/
  | token (t : TCPConn) (sc : Scanner) (tok : List Byte)
  /-- No token: the scanner has to read. -/
  | noToken (t : TCPConn) (sc : Scanner)
  deriving DecidableEq

/-- The first part of `Scanner.Scan`: with bytes held, or at the end of the
stream, the scanner calls `split` on the bytes held, stops on its error,
checks and applies the advance count (`s.advance`), and returns the token if
there is one. -/
def tryToken (t : TCPConn) (sc : Scanner) : Tried :=
  if sc.held ≠ [] ∨ sc.atEOF = true then
    match split t sc.held sc.atEOF with
    | none => Tried.panicked
    | some (t1, r) =>
      match r.err with
      | some e => Tried.halt t1 (Stop.failed e)
      | none =>
        if r.adv > sc.held.length then Tried.halt t1 (Stop.failed ErrAdvanceTooFar)
        else
          match r.token with
          | some tok =>
            Tried.token t1 { sc with start := sc.start + r.adv, held := sc.held.drop r.adv } tok
          | none =>
            Tried.noToken t1 { sc with start := sc.start + r.adv, held := sc.held.drop r.adv }
  else Tried.noToken t sc

/-- The loop `for scanner.Scan() { ... }` of `Scan`, with the loop inside
`Scanner.Scan`.  One turn: the scanner tries for a token; with a token the
loop body either finds the context done (info message, `break`) or copies the
token to the data channel, and the scanner is called again; without a token
the scanner ends if the stream is at its end, and otherwise makes room, reads
from the socket into the free part of its buffer, and tries again.  A token
of `split` always advances, so the count of empty tokens of the scanner stays
at zero; a read error of the socket other than `io.EOF` is not modelled. -/
def scanLoop : Nat → TCPConn → Scanner → List (List Byte) → Option (TCPConn × Stop)
  | 0, t, _, _ => some (t, Stop.fuel)
  | fuel + 1, t, sc, rs =>
    match tryToken t sc with
    | Tried.panicked => none
    | Tried.halt t1 s => some (t1, s)
    | Tried.token t1 sc1 tok =>
      match t1.scope with
      | none => none
      | some true => some ({ t1 with info := t1.info ++ [connDone t1.remoteAddr] }, Stop.cancelled)
      | some false => scanLoop fuel { t1 with data := t1.data ++ [tok] } sc1 rs
    | Tried.noToken t1 sc1 =>
      if sc1.atEOF = true then some (t1, Stop.ended)
      else
        match makeRoom sc1 with
        | none => some (t1, Stop.failed ErrTooLong)
        | some sc2 =>
          match sockRead (sc2.cap - (sc2.start + sc2.held.length)) rs with
          | none => scanLoop fuel t1 { sc2 with atEOF := true } rs
          | some (bytes, rs1) => scanLoop fuel t1 { sc2 with held := sc2.held ++ bytes } rs1

/-- The loop of `Scan` on a fresh scanner, over the pieces `reads` in which
the stream arrives, with enough fuel: a read takes at least one byte of the
stream and a token at least the four bytes of its header. -/
def scanReads (t : TCPConn) (reads : List (List Byte)) : Option (TCPConn × Stop) :=
  scanLoop (2 * reads.flatten.length + 2) t NewScanner reads

/-- The method `TCPConn.Scan` over the pieces `reads` in which the stream arrives,
followed by the end of the stream: the loop, the error of the scanner sent to
the error channel, and the deferred `CloseOnce`. -/
def Scan (t : TCPConn) (reads : List (List Byte)) (closeErr : Option String) :
    Option TCPConn :=
  match scanReads t reads with
  | none => none
  | some (t1, Stop.failed e) => CloseOnce { t1 with error := t1.error ++ [e] } closeErr
  | some (t1, _) => CloseOnce t1 closeErr

/-- What the loop of `Scan` comes to, told from the bytes `s` of the stream
that are not consumed yet, without the scanner and its reads: a frame of at
most `maxScanTokenSize` bytes that is there in full is delivered, a header
that declares more than 1,048,576 bytes is the error of `split`, a frame that
does not fit in the buffer is `ErrTooLong` once the buffer is full, and a
frame cut short by the end of the stream ends the loop.  The lemma
`scanLoop_stream` shows that `scanLoop` computes this; the function serves to
compare runs of `scanLoop`. -/
def streamResult : Nat → TCPConn → List Byte → Option (TCPConn × Stop)
  | 0, t, _ => some (t, Stop.fuel)
  | fuel + 1, t, s =>
    if s.length < 4 then some (t, Stop.ended)
    else if readUint32 s > 1048576 then
      match Close t with
      | none => none
      | some t1 => some (t1, Stop.failed (tooLarge t1.remoteAddr))
    else if 4 + readUint32 s ≤ maxScanTokenSize then
      if 4 + readUint32 s ≤ s.length then
        match t.scope with
        | none => none
        | some true =>
          some ({ t with info := t.info ++ [connDone t.remoteAddr] }, Stop.cancelled)
        | some false =>
          streamResult fuel { t with data := t.data ++ [s.take (4 + readUint32 s)] }
            (s.drop (4 + readUint32 s))
      else some (t, Stop.ended)
    else if maxScanTokenSize ≤ s.length then some (t, Stop.failed ErrTooLong)
    else some (t, Stop.ended)

/-- A fresh box after `Start`: scope installed, nothing written or delivered. -/
def conn0 : TCPConn :=
  { scope := some false, remoteAddr := "10.0.0.7:4000", written := [], sockCloses := 0,
    poolReturns := 0, data := [], info := [], error := [] }

/-- A payload of `n` zero bytes. -/
def zeros (n : Nat) : List Byte := List.replicate n 0

/-- The payload `"abc"`. -/
def abc : List Byte := [0x61, 0x62, 0x63]

/-! ## The header -/

theorem zeros_length (n : Nat) : (zeros n).length = n := List.length_replicate n 0

theorem readUint32_PutUint32 (v : Nat) (p : List Byte) :
    readUint32 (PutUint32 v ++ p) = v % 2 ^ 32 := by
  simp only [PutUint32, List.cons_append, List.nil_append, readUint32, Fin.ofNat, Fin.val_mk]
  omega

theorem PutUint32_length (v : Nat) : (PutUint32 v).length = 4 := rfl

theorem ReadData_PutUint32 (v : Nat) (p : List Byte) : ReadData (PutUint32 v ++ p) = some p := by
  have h4 : ¬ (PutUint32 v ++ p).length < headerLen := by
    rw [List.length_append, PutUint32_length]; simp [headerLen]
  rw [ReadData, if_neg h4]
  simp [headerLen, PutUint32]

/-! ## The five exits of `split` -/

theorem split_short (t : TCPConn) (data : List Byte) (atEOF : Bool) (h : data.length < 4) :
    split t data atEOF = some (t, ⟨0, none, none⟩) := by
  simp [split, headerLen, h]

theorem split_long (t : TCPConn) (c : Bool) (data : List Byte) (atEOF : Bool)
    (hs : t.scope = some c) (h : 1048576 < data.length) :
    split t data atEOF
      = some ({ t with scope := some true }, ⟨0, none, some (tooLarge t.remoteAddr)⟩) := by
  have h4 : ¬ data.length < 4 := by omega
  simp [split, headerLen, h4, h, Close, hs]

theorem split_big_header (t : TCPConn) (c : Bool) (data : List Byte) (atEOF : Bool)
    (hs : t.scope = some c) (h4 : 4 ≤ data.length) (hN : data.length ≤ 1048576)
    (hL : 1048576 < readUint32 data) :
    split t data atEOF
      = some ({ t with scope := some true }, ⟨0, none, some (tooLarge t.remoteAddr)⟩) := by
  have h4 : ¬ data.length < 4 := by omega
  have hN : ¬ 1048576 < data.length := by omega
  simp [split, headerLen, h4, hN, hL, Close, hs]

theorem split_wait (t : TCPConn) (data : List Byte) (atEOF : Bool)
    (h4 : 4 ≤ data.length) (hN : data.length ≤ 1048576)
    (hL : readUint32 data ≤ 1048576) (hT : data.length - 4 < readUint32 data) :
    split t data atEOF = some (t, ⟨0, none, none⟩) := by
  have h4 : ¬ data.length < 4 := by omega
  have hN : ¬ 1048576 < data.length := by omega
  have hL : ¬ 1048576 < readUint32 data := by omega
  have hT : (data.length - 4) % 4294967296 < readUint32 data := by omega
  simp [split, headerLen, h4, hN, hL, hT]

theorem split_frame (t : TCPConn) (data : List Byte) (atEOF : Bool)
    (h4 : 4 ≤ data.length) (hN : data.length ≤ 1048576)
    (hT : readUint32 data ≤ data.length - 4) :
    split t data atEOF
      = some (t, ⟨4 + readUint32 data, some (data.take (4 + readUint32 data)), none⟩) := by
  have h4 : ¬ data.length < 4 := by omega
  have hN : ¬ 1048576 < data.length := by omega
  have hL : ¬ 1048576 < readUint32 data := by omega
  have hT : ¬ (data.length - 4) % 4294967296 < readUint32 data := by omega
  simp [split, headerLen, h4, hN, hL, hT]

/-! ## `split` on one buffer -/

/-- C4 (one frame ready): on a buffer of 4 to 1,048,576 bytes whose header
declares a payload length `L` that the buffer holds in full, `split` returns
no error, `adv = 4 + L` and the first `adv` bytes of the buffer, header
included, as the token, whatever the end-of-stream flag is, and leaves the box
as it was; with `L = 0` the token is the 4-byte header alone. -/
theorem split_one_frame_ready (t : TCPConn) (data : List Byte) (atEOF : Bool)
    (h4 : 4 ≤ data.length) (hN : data.length ≤ 1048576)
    (hL : readUint32 data ≤ data.length - 4) :
    split t data atEOF
        = some (t, ⟨4 + readUint32 data, some (data.take (4 + readUint32 data)), none⟩)
      ∧ (readUint32 data = 0 →
          split t data atEOF = some (t, ⟨4, some (data.take 4), none⟩)
            ∧ (data.take 4).length = 4) := by
  refine ⟨split_frame t data atEOF h4 hN hL, fun h0 => ?_⟩
  have h := split_frame t data atEOF h4 hN hL
  rw [h0] at h
  refine ⟨h, ?_⟩
  rw [List.length_take]
  omega

theorem split_one_frame_ready_witness :
    split conn0 [0, 0, 0, 0, 9] true = some (conn0, ⟨4, some [0, 0, 0, 0], none⟩)
      ∧ split conn0 ([3, 0, 0, 0] ++ abc ++ [7]) false
          = some (conn0, ⟨7, some ([3, 0, 0, 0] ++ abc), none⟩) :=
  ⟨((split_one_frame_ready conn0 [0, 0, 0, 0, 9] true (by decide) (by decide)
      (by decide)).2 (by decide)).1,
    (split_one_frame_ready conn0 ([3, 0, 0, 0] ++ abc ++ [7]) false (by decide) (by decide)
      (by decide)).1⟩

/-- C5 (oversized rejection): on a box with an installed scope and a buffer of
at least 4 bytes, `split` returns an error exactly when the buffer is longer
than 1,048,576 bytes or the header declares more than 1,048,576 bytes; with
the error the scope is cancelled, `adv = 0` and there is no token; a buffer of
exactly 1,048,576 bytes, and a declared length of exactly 1,048,576, are not
rejected. -/
theorem split_error_iff_oversized (t : TCPConn) (c : Bool) (data : List Byte) (atEOF : Bool)
    (hs : t.scope = some c) (h4 : 4 ≤ data.length) :
    ∃ t1 r, split t data atEOF = some (t1, r)
      ∧ (r.err ≠ none ↔ (1048576 < data.length ∨ 1048576 < readUint32 data))
      ∧ (r.err ≠ none → t1.scope = some true ∧ r.adv = 0 ∧ r.token = none)
      ∧ (data.length = 1048576 → readUint32 data ≤ 1048576 → r.err = none)
      ∧ (readUint32 data = 1048576 → data.length ≤ 1048576 → r.err = none) := by
  by_cases hlen : 1048576 < data.length
  · refine ⟨_, _, split_long t c data atEOF hs hlen, ?_, ?_, ?_, ?_⟩
    · simp [hlen]
    · intro _; exact ⟨rfl, rfl, rfl⟩
    · intro h; omega
    · intro _ h; omega
  · by_cases hbig : 1048576 < readUint32 data
    · refine ⟨_, _, split_big_header t c data atEOF hs h4 (by omega) hbig, ?_, ?_, ?_, ?_⟩
      · simp [hbig]
      · intro _; exact ⟨rfl, rfl, rfl⟩
      · intro _ h; omega
      · intro h; omega
    · by_cases hT : data.length - 4 < readUint32 data
      · refine ⟨_, _, split_wait t data atEOF h4 (by omega) (by omega) hT, ?_, ?_, ?_, ?_⟩
        · simp [hlen, hbig]
        · intro h; exact absurd rfl h
        · intro _ _; rfl
        · intro _ _; rfl
      · refine ⟨_, _, split_frame t data atEOF h4 (by omega) (by omega), ?_, ?_, ?_, ?_⟩
        · simp [hlen, hbig]
        · intro h; exact absurd rfl h
        · intro _ _; rfl
        · intro _ _; rfl

theorem split_error_iff_oversized_witness :
    ∃ t1 r, split conn0 [1, 0, 16, 0, 5] false = some (t1, r)
      ∧ (r.err ≠ none ↔
          (1048576 < [(1 : Byte), 0, 16, 0, 5].length ∨ 1048576 < readUint32 [1, 0, 16, 0, 5]))
      ∧ (r.err ≠ none → t1.scope = some true ∧ r.adv = 0 ∧ r.token = none)
      ∧ ([(1 : Byte), 0, 16, 0, 5].length = 1048576 → readUint32 [1, 0, 16, 0, 5] ≤ 1048576 →
          r.err = none)
      ∧ (readUint32 [1, 0, 16, 0, 5] = 1048576 → [(1 : Byte), 0, 16, 0, 5].length ≤ 1048576 →
          r.err = none) :=
  split_error_iff_oversized conn0 false [1, 0, 16, 0, 5] false rfl (by decide)

/-- C7 (need more bytes): on a buffer shorter than the header, or on a buffer
of 4 to 1,048,576 bytes whose header declares a length `L` with
`len - 4 < L ≤ 1,048,576`, `split` returns `adv = 0`, no token and no error
and leaves the box, its scope included, as it was; and on every buffer the
result of `split` is the same for both values of the end-of-stream flag. -/
theorem split_need_more (t : TCPConn) (data : List Byte) (atEOF : Bool)
    (h : data.length < 4 ∨ (4 ≤ data.length ∧ data.length ≤ 1048576
      ∧ data.length - 4 < readUint32 data ∧ readUint32 data ≤ 1048576)) :
    split t data atEOF = some (t, ⟨0, none, none⟩)
      ∧ ∀ (u : TCPConn) (buf : List Byte), split u buf true = split u buf false := by
  refine ⟨?_, fun _ _ => rfl⟩
  rcases h with h | ⟨h4, hN, hT, hL⟩
  · exact split_short t data atEOF h
  · exact split_wait t data atEOF h4 hN hL hT

theorem split_need_more_witness :
    split conn0 [5, 0, 0, 0, 1, 2] true = some (conn0, ⟨0, none, none⟩)
      ∧ ∀ (u : TCPConn) (buf : List Byte), split u buf true = split u buf false :=
  split_need_more conn0 [5, 0, 0, 0, 1, 2] true
    (Or.inr ⟨by decide, by decide, by decide, by decide⟩)

/-- C8, as the code has it: on a box with an installed scope and a buffer of
exactly the 4 header bytes whose declared payload length is above 1,048,576,
`split` returns the protocol error, which names the remote address, with
`adv = 0` and no token, and cancels the scope, rather than asking for more
bytes. -/
theorem split_header_over_ceiling (t : TCPConn) (c : Bool) (data : List Byte) (atEOF : Bool)
    (hs : t.scope = some c) (h4 : data.length = 4) (hL : 1048576 < readUint32 data) :
    split t data atEOF
      = some ({ t with scope := some true }, ⟨0, none, some (tooLarge t.remoteAddr)⟩) :=
  split_big_header t c data atEOF hs (by omega) (by omega) hL

theorem split_header_over_ceiling_witness :
    split conn0 [1, 0, 16, 0] false
      = some ({ conn0 with scope := some true }, ⟨0, none, some (tooLarge conn0.remoteAddr)⟩) :=
  split_header_over_ceiling conn0 false [1, 0, 16, 0] false rfl (by decide) (by decide)

/-- C8 as stated fails: the header `00 00 10 00` declares `L = 1,048,576`, so
`L + 4` is above 1,048,576, and on these 4 bytes alone `split` asks for more
bytes: no error, and the scope is not cancelled. -/
theorem split_header_1048576_waits :
    readUint32 [0, 0, 16, 0] + 4 > 1048576
      ∧ split conn0 [0, 0, 16, 0] false = some (conn0, ⟨0, none, none⟩)
      ∧ conn0.scope = some false := by
  decide

/-! ## `Write` -/

theorem Write_written (t : TCPConn) (p : List Byte) (sock : List Byte → Int × Option String) :
    (Write t p sock).conn.written = t.written ++ [PutUint32 (p.length % 2 ^ 32) ++ p] := by
  simp only [Write]
  rcases sock (PutUint32 (p.length % 2 ^ 32) ++ p) with ⟨n, _ | e⟩ <;> rfl

/-- C2 (wire format): for a payload `p` shorter than `2 ^ 32` bytes, `Write`
passes exactly one buffer to the socket, made of four bytes `b0 b1 b2 b3` with
`b0 + 2^8 b1 + 2^16 b2 + 2^24 b3 = len(p)` (the unsigned little-endian
encoding of the length) followed by `p` unchanged, `len(p) + 4` bytes in all;
for `"abc"` the buffer is `03 00 00 00 61 62 63`. -/
theorem Write_wire_format (t : TCPConn) (p : List Byte) (sock : List Byte → Int × Option String)
    (hp : p.length < 2 ^ 32) :
    (∃ b0 b1 b2 b3 : Byte,
        (Write t p sock).conn.written = t.written ++ [b0 :: b1 :: b2 :: b3 :: p]
          ∧ b0.val + 2 ^ 8 * b1.val + 2 ^ 16 * b2.val + 2 ^ 24 * b3.val = p.length
          ∧ (b0 :: b1 :: b2 :: b3 :: p).length = p.length + 4)
      ∧ (Write t abc sock).conn.written
          = t.written ++ [[0x03, 0x00, 0x00, 0x00, 0x61, 0x62, 0x63]] := by
  constructor
  · refine ⟨Fin.ofNat (p.length % 2 ^ 32), Fin.ofNat (p.length % 2 ^ 32 / 2 ^ 8),
      Fin.ofNat (p.length % 2 ^ 32 / 2 ^ 16), Fin.ofNat (p.length % 2 ^ 32 / 2 ^ 24), ?_, ?_, ?_⟩
    · rw [Write_written]; rfl
    · simp only [Fin.ofNat, Fin.val_mk]
      omega
    · simp
  · rw [Write_written]; rfl

theorem Write_wire_format_witness :
    (∃ b0 b1 b2 b3 : Byte,
        (Write conn0 [7, 8] (fun b => ((b.length : Int), none))).conn.written
            = conn0.written ++ [b0 :: b1 :: b2 :: b3 :: [7, 8]]
          ∧ b0.val + 2 ^ 8 * b1.val + 2 ^ 16 * b2.val + 2 ^ 24 * b3.val = [(7 : Byte), 8].length
          ∧ (b0 :: b1 :: b2 :: b3 :: [(7 : Byte), 8]).length = [(7 : Byte), 8].length + 4)
      ∧ (Write conn0 abc (fun b => ((b.length : Int), none))).conn.written
          = conn0.written ++ [[0x03, 0x00, 0x00, 0x00, 0x61, 0x62, 0x63]] :=
  Write_wire_format conn0 [7, 8] (fun b => ((b.length : Int), none)) (by decide)

/-- C9 fails on the error path: for the payload `"abc"` and a socket that
writes 6 of the 7 bytes and reports an error, 2 payload bytes went out, and
`Write` returns the count 6, the socket's own count with the 4 header bytes
in it, next to the socket's error; after a full write without error it
returns `7 - 4 = 3`. -/
theorem Write_count_on_error :
    (Write conn0 abc (fun _ => (6, some "write: broken pipe"))).n = 6
      ∧ (Write conn0 abc (fun _ => (6, some "write: broken pipe"))).err
          = some "write: broken pipe"
      ∧ (Write conn0 abc (fun b => ((b.length : Int), none))).n = 3 := by
  decide

/-! ## Framing round trip -/

/-- C1, as the code has it: for every payload `p` of 0 to 1,048,572 bytes, the
buffer `b` that `Write` hands to the socket, given to `split` as the whole
buffer, comes back as exactly one frame, `b` itself with `adv = len(p) + 4`
and no error, and stripping its first 4 bytes as `ReadData` does gives `p`. -/
theorem Write_split_round_trip (w t : TCPConn) (p : List Byte)
    (sock : List Byte → Int × Option String) (atEOF : Bool) (hp : p.length ≤ 1048572) :
    ∃ b, (Write w p sock).conn.written = w.written ++ [b]
      ∧ split t b atEOF = some (t, ⟨4 + p.length, some b, none⟩)
      ∧ ReadData b = some p := by
  have hmod : p.length % 2 ^ 32 = p.length := Nat.mod_eq_of_lt (by omega)
  have hlen : (PutUint32 p.length ++ p).length = 4 + p.length := by
    rw [List.length_append, PutUint32_length]
  have hread : readUint32 (PutUint32 p.length ++ p) = p.length := by
    rw [readUint32_PutUint32, hmod]
  refine ⟨PutUint32 p.length ++ p, ?_, ?_, ?_⟩
  · rw [Write_written, hmod]
  · have h := split_frame t (PutUint32 p.length ++ p) atEOF (by omega) (by omega) (by omega)
    rw [hread] at h
    rw [h, List.take_of_length_le (by omega)]
  · exact ReadData_PutUint32 _ _

theorem Write_split_round_trip_witness :
    ∃ b, (Write conn0 abc (fun b => ((b.length : Int), none))).conn.written = conn0.written ++ [b]
      ∧ split conn0 b false = some (conn0, ⟨4 + abc.length, some b, none⟩)
      ∧ ReadData b = some abc :=
  Write_split_round_trip conn0 conn0 abc (fun b => ((b.length : Int), none)) false (by decide)

/-- C1 as stated fails: the payload of 1,048,576 zero bytes is in the range of
the claim, `Write` hands `00 00 10 00` and the payload to the socket, and
`split` on that buffer of 1,048,580 bytes cancels the scope and returns the
"too large" error, with no token. -/
theorem round_trip_fails_at_1048576 :
    (zeros 1048576).length ≤ 1048576
      ∧ (Write conn0 (zeros 1048576) (fun b => ((b.length : Int), none))).conn.written
          = [[0, 0, 16, 0] ++ zeros 1048576]
      ∧ split conn0 ([0, 0, 16, 0] ++ zeros 1048576) false
          = some ({ conn0 with scope := some true },
              ⟨0, none, some (tooLarge conn0.remoteAddr)⟩) := by
  refine ⟨?_, ?_, ?_⟩
  · rw [zeros_length]
  · rw [Write_written, zeros_length]
    rfl
  · refine split_long conn0 false _ false rfl ?_
    rw [List.length_append, zeros_length]
    decide

/-! ## Teardown -/

/-- C10 fails already when one call of `CloseOnce` runs entirely after the
other: on a box with an installed scope, after two calls the socket's `Close`
was called twice and `SendConnToPool` twice (the second `Close` of the socket
reports an error, which goes to the error channel before the pool call). -/
theorem CloseOnce_twice_closes_twice :
    ((CloseOnce (InstallCtx conn0 false) none).bind
        (fun t => CloseOnce t (some "close: use of closed network connection"))).map
        (fun t => (t.sockCloses, t.poolReturns, t.error))
      = some (2, 2, ["close: use of closed network connection"]) := by
  decide

/-! ## The scanner -/

theorem readUint32_append (buf d : List Byte) (h4 : 4 ≤ buf.length) :
    readUint32 (buf ++ d) = readUint32 buf := by
  match buf, h4 with
  | _ :: _ :: _ :: _ :: _, _ => rfl

theorem split_header_big (t : TCPConn) (data : List Byte) (atEOF : Bool)
    (h4 : 4 ≤ data.length) (hN : data.length ≤ 1048576) (hL : 1048576 < readUint32 data) :
    split t data atEOF
      = match Close t with
        | none => none
        | some t1 => some (t1, ⟨0, none, some (tooLarge t1.remoteAddr)⟩) := by
  have h4 : ¬ data.length < 4 := by omega
  have hN : ¬ 1048576 < data.length := by omega
  simp [split, headerLen, h4, hN, hL]

/-! ### The first part of `Scanner.Scan` -/

theorem advance_zero (sc : Scanner) :
    { sc with start := sc.start + 0, held := sc.held.drop 0 } = sc := by
  cases sc; rfl

theorem tryToken_short (t : TCPConn) (sc : Scanner) (h : sc.held.length < 4) :
    tryToken t sc = Tried.noToken t sc := by
  by_cases hc : sc.held ≠ [] ∨ sc.atEOF = true
  · simp only [tryToken, if_pos hc, split_short t sc.held sc.atEOF h]
    simp only [gt_iff_lt, Nat.not_lt_zero, if_false]
    rw [advance_zero]
  · simp only [tryToken, if_neg hc]

theorem tryToken_wait (t : TCPConn) (sc : Scanner) (h4 : 4 ≤ sc.held.length)
    (hN : sc.held.length ≤ 1048576) (hL : readUint32 sc.held ≤ 1048576)
    (hT : sc.held.length - 4 < readUint32 sc.held) :
    tryToken t sc = Tried.noToken t sc := by
  have hc : sc.held ≠ [] ∨ sc.atEOF = true :=
    Or.inl (fun h => by rw [h] at h4; exact absurd h4 (by decide))
  simp only [tryToken, if_pos hc, split_wait t sc.held sc.atEOF h4 hN hL hT]
  simp only [gt_iff_lt, Nat.not_lt_zero, if_false]
  rw [advance_zero]

theorem tryToken_big (t : TCPConn) (sc : Scanner) (h4 : 4 ≤ sc.held.length)
    (hN : sc.held.length ≤ 1048576) (hL : 1048576 < readUint32 sc.held) :
    tryToken t sc
      = match Close t with
        | none => Tried.panicked
        | some t1 => Tried.halt t1 (Stop.failed (tooLarge t1.remoteAddr)) := by
  have hc : sc.held ≠ [] ∨ sc.atEOF = true :=
    Or.inl (fun h => by rw [h] at h4; exact absurd h4 (by decide))
  simp only [tryToken, if_pos hc, split_header_big t sc.held sc.atEOF h4 hN hL]
  cases Close t <;> rfl

theorem tryToken_frame (t : TCPConn) (sc : Scanner) (h4 : 4 ≤ sc.held.length)
    (hN : sc.held.length ≤ 1048576) (hT : readUint32 sc.held ≤ sc.held.length - 4) :
    tryToken t sc
      = Tried.token t
          { sc with start := sc.start + (4 + readUint32 sc.held),
                    held := sc.held.drop (4 + readUint32 sc.held) }
          (sc.held.take (4 + readUint32 sc.held)) := by
  have hc : sc.held ≠ [] ∨ sc.atEOF = true :=
    Or.inl (fun h => by rw [h] at h4; exact absurd h4 (by decide))
  have hadv : ¬ 4 + readUint32 sc.held > sc.held.length := by omega
  simp only [tryToken, if_pos hc, split_frame t sc.held sc.atEOF h4 hN hT, if_neg hadv]

/-! ### Room and reads -/

/-- With the bytes held inside a buffer of at most 64 KiB, the scanner gives up
exactly when it holds 64 KiB, and otherwise has free room behind the bytes
held, which stay as they are. -/
theorem makeRoom_spec (sc : Scanner) (hi : sc.start + sc.held.length ≤ sc.cap)
    (hc : sc.cap ≤ 65536) :
    (sc.held.length = 65536 ∧ makeRoom sc = none)
      ∨ (sc.held.length < 65536 ∧ ∃ sc2, makeRoom sc = some sc2 ∧ sc2.held = sc.held
          ∧ sc2.atEOF = sc.atEOF ∧ sc2.start + sc.held.length < sc2.cap ∧ sc2.cap ≤ 65536) := by
  obtain ⟨cap, start, held, eof⟩ := sc
  simp only at hi hc
  simp only [makeRoom, maxScanTokenSize, maxInt, startBufSize]
  by_cases hshift : start > 0 ∧ (start + held.length = cap ∨ start > cap / 2)
  · rw [if_pos hshift]
    simp only
    have hne : ¬ (0 + held.length = cap) := by omega
    rw [if_neg hne]
    exact Or.inr ⟨by omega, _, rfl, rfl, rfl, by simp only; omega, hc⟩
  · rw [if_neg hshift]
    simp only
    by_cases hfull : start + held.length = cap
    · rw [if_pos hfull]
      have hs0 : start = 0 := by
        by_contra hne
        exact hshift ⟨by omega, Or.inl hfull⟩
      by_cases hbig : cap ≥ 64 * 1024 ∨ cap > (2 ^ 63 - 1) / 2
      · rw [if_pos hbig]
        exact Or.inl ⟨by omega, rfl⟩
      · rw [if_neg hbig]
        refine Or.inr ⟨by omega, _, rfl, rfl, rfl, ?_, ?_⟩
        · simp only
          by_cases h0 : cap * 2 = 0
          · rw [if_pos h0]; omega
          · rw [if_neg h0]; omega
        · simp only
          omega
    · rw [if_neg hfull]
      exact Or.inr ⟨by omega, _, rfl, rfl, rfl, by simp only; omega, hc⟩

theorem sockRead_none (k : Nat) : ∀ rs : List (List Byte), sockRead k rs = none →
    rs.flatten = [] := by
  intro rs
  induction rs with
  | nil => intro _; rfl
  | cons c rs ih =>
    intro h
    cases c with
    | nil =>
      rw [sockRead] at h
      rw [List.flatten_cons, List.nil_append]
      exact ih h
    | cons b c => simp [sockRead] at h

theorem sockRead_some (k : Nat) (hk : 0 < k) : ∀ (rs rs1 : List (List Byte)) (bytes : List Byte),
    sockRead k rs = some (bytes, rs1) →
    bytes ++ rs1.flatten = rs.flatten ∧ 0 < bytes.length ∧ bytes.length ≤ k := by
  intro rs
  induction rs with
  | nil => intro rs1 bytes h; simp [sockRead] at h
  | cons c rs ih =>
    intro rs1 bytes h
    cases c with
    | nil =>
      rw [sockRead] at h
      rw [List.flatten_cons, List.nil_append]
      exact ih rs1 bytes h
    | cons b c =>
      rw [sockRead] at h
      simp only [Option.some.injEq, Prod.mk.injEq] at h
      obtain ⟨hb, hr⟩ := h
      subst hb hr
      refine ⟨?_, ?_, ?_⟩
      · rw [List.flatten_cons, List.flatten_cons, ← List.append_assoc, List.take_append_drop]
      · rw [List.length_take, List.length_cons]; omega
      · rw [List.length_take]; omega

/-! ### The stream, frame by frame -/

theorem streamResult_short (g : Nat) (t : TCPConn) (s : List Byte) (h : s.length < 4) :
    streamResult (g + 1) t s = some (t, Stop.ended) := by
  simp only [streamResult, if_pos h]

theorem streamResult_big (g : Nat) (t : TCPConn) (s : List Byte) (h4 : 4 ≤ s.length)
    (hL : 1048576 < readUint32 s) :
    streamResult (g + 1) t s
      = match Close t with
        | none => none
        | some t1 => some (t1, Stop.failed (tooLarge t1.remoteAddr)) := by
  have h4 : ¬ s.length < 4 := by omega
  simp only [streamResult, if_neg h4, gt_iff_lt, if_pos hL]

theorem streamResult_frame (g : Nat) (t : TCPConn) (s : List Byte)
    (hk : 4 + readUint32 s ≤ 65536) (hT : 4 + readUint32 s ≤ s.length) :
    streamResult (g + 1) t s
      = match t.scope with
        | none => none
        | some true =>
          some ({ t with info := t.info ++ [connDone t.remoteAddr] }, Stop.cancelled)
        | some false =>
          streamResult g { t with data := t.data ++ [s.take (4 + readUint32 s)] }
            (s.drop (4 + readUint32 s)) := by
  have h4 : ¬ s.length < 4 := by omega
  have hL : ¬ 1048576 < readUint32 s := by omega
  have hk : 4 + readUint32 s ≤ maxScanTokenSize := hk
  simp only [streamResult, if_neg h4, gt_iff_lt, if_neg hL, if_pos hk, if_pos hT]

theorem streamResult_cut (g : Nat) (t : TCPConn) (s : List Byte) (h4 : 4 ≤ s.length)
    (hL : readUint32 s ≤ 1048576) (hT : s.length < 4 + readUint32 s) (hs : s.length < 65536) :
    streamResult (g + 1) t s = some (t, Stop.ended) := by
  have h4 : ¬ s.length < 4 := by omega
  have hL : ¬ 1048576 < readUint32 s := by omega
  have hT : ¬ 4 + readUint32 s ≤ s.length := by omega
  have hs : ¬ maxScanTokenSize ≤ s.length := by simp only [maxScanTokenSize]; omega
  simp only [streamResult, if_neg h4, gt_iff_lt, if_neg hL, if_neg hT, if_neg hs]
  split <;> rfl

theorem streamResult_tooLong (g : Nat) (t : TCPConn) (s : List Byte)
    (hL : readUint32 s ≤ 1048576) (hk : 65536 < 4 + readUint32 s) (hs : 65536 ≤ s.length) :
    streamResult (g + 1) t s = some (t, Stop.failed ErrTooLong) := by
  have h4 : ¬ s.length < 4 := by omega
  have hL : ¬ 1048576 < readUint32 s := by omega
  have hk : ¬ 4 + readUint32 s ≤ maxScanTokenSize := by simp only [maxScanTokenSize]; omega
  have hs : maxScanTokenSize ≤ s.length := hs
  simp only [streamResult, if_neg h4, gt_iff_lt, if_neg hL, if_neg hk, if_pos hs]

/-! ### The scanner computes `streamResult` -/

theorem scanLoop_succ (f : Nat) (t : TCPConn) (sc : Scanner) (rs : List (List Byte)) :
    scanLoop (f + 1) t sc rs
      = match tryToken t sc with
        | Tried.panicked => none
        | Tried.halt t1 s => some (t1, s)
        | Tried.token t1 sc1 tok =>
          match t1.scope with
          | none => none
          | some true =>
            some ({ t1 with info := t1.info ++ [connDone t1.remoteAddr] }, Stop.cancelled)
          | some false => scanLoop f { t1 with data := t1.data ++ [tok] } sc1 rs
        | Tried.noToken t1 sc1 =>
          if sc1.atEOF = true then some (t1, Stop.ended)
          else
            match makeRoom sc1 with
            | none => some (t1, Stop.failed ErrTooLong)
            | some sc2 =>
              match sockRead (sc2.cap - (sc2.start + sc2.held.length)) rs with
              | none => scanLoop f t1 { sc2 with atEOF := true } rs
              | some (bytes, rs1) =>
                scanLoop f t1 { sc2 with held := sc2.held ++ bytes } rs1 := rfl

/-- At the end of the stream the scanner delivers the frames it still holds. -/
theorem scanLoop_atEOF (f : Nat) : ∀ (g : Nat) (t : TCPConn) (sc : Scanner)
    (rs : List (List Byte)), sc.atEOF = true → sc.held.length < 65536 →
    sc.held.length < f → sc.held.length < g →
    scanLoop f t sc rs = streamResult g t sc.held := by
  induction f with
  | zero => intro g t sc rs _ _ hf; omega
  | succ f ih =>
    intro g t sc rs he h64 hf hg
    cases g with
    | zero => omega
    | succ g =>
      rw [scanLoop_succ]
      by_cases h4 : sc.held.length < 4
      · rw [tryToken_short t sc h4, streamResult_short g t _ h4]
        simp only [he, if_true]
      · by_cases hL : 1048576 < readUint32 sc.held
        · rw [tryToken_big t sc (by omega) (by omega) hL,
            streamResult_big g t _ (by omega) hL]
          cases Close t <;> rfl
        · by_cases hT : sc.held.length - 4 < readUint32 sc.held
          · rw [tryToken_wait t sc (by omega) (by omega) (by omega) hT,
              streamResult_cut g t _ (by omega) (by omega) (by omega) h64]
            simp only [he, if_true]
          · rw [tryToken_frame t sc (by omega) (by omega) (by omega),
              streamResult_frame g t _ (by omega) (by omega)]
            simp only
            cases t.scope with
            | none => rfl
            | some c =>
              cases c with
              | true => rfl
              | false =>
                simp only
                have hd : (sc.held.drop (4 + readUint32 sc.held)).length
                    = sc.held.length - (4 + readUint32 sc.held) := List.length_drop _ _
                refine ih g _ _ rs he ?_ ?_ ?_
                · simp only; omega
                · simp only; omega
                · simp only; omega

/-- Before the end of the stream: the scanner, with the bytes `sc.held` in its
buffer and the pieces `rs` still to come, comes to what `streamResult` tells
from all these bytes in a row, however they are cut into pieces. -/
theorem scanLoop_stream (f : Nat) : ∀ (g : Nat) (t : TCPConn) (sc : Scanner)
    (rs : List (List Byte)), sc.atEOF = false → sc.start + sc.held.length ≤ sc.cap →
    sc.cap ≤ 65536 → 2 * rs.flatten.length + sc.held.length + 1 < f →
    (sc.held ++ rs.flatten).length < g →
    scanLoop f t sc rs = streamResult g t (sc.held ++ rs.flatten) := by
  induction f with
  | zero => intro g t sc rs _ _ _ hf; omega
  | succ f ih =>
    intro g t sc rs he hi hc hf hg
    cases g with
    | zero => omega
    | succ g =>
      have hlen : (sc.held ++ rs.flatten).length = sc.held.length + rs.flatten.length :=
        List.length_append _ _
      -- the scanner has no token and goes on to read
      have hread : tryToken t sc = Tried.noToken t sc →
          (sc.held.length = 65536 →
            streamResult (g + 1) t (sc.held ++ rs.flatten) = some (t, Stop.failed ErrTooLong)) →
          scanLoop (f + 1) t sc rs = streamResult (g + 1) t (sc.held ++ rs.flatten) := by
        intro htry htl
        rw [scanLoop_succ, htry]
        simp only [he, Bool.false_eq_true, if_false]
        rcases makeRoom_spec sc hi hc with ⟨h65, hnone⟩ | ⟨hlt, sc2, hsome, hheld, heof, hroom, hcap⟩
        · rw [hnone]
          exact (htl h65).symm
        · rw [hsome]
          simp only
          rw [hheld]
          cases hrd : sockRead (sc2.cap - (sc2.start + sc.held.length)) rs with
          | none =>
            simp only
            have hflat := sockRead_none _ rs hrd
            rw [hflat, List.append_nil]
            have h := scanLoop_atEOF f (g + 1) t { sc2 with atEOF := true } rs rfl
              (by simp only; rw [hheld]; exact hlt) (by simp only; rw [hheld]; omega)
              (by simp only; rw [hheld]; omega)
            simp only [hheld] at h
            exact h
          | some x =>
            obtain ⟨bytes, rs1⟩ := x
            simp only
            obtain ⟨hcat, hpos, hle⟩ := sockRead_some _ (by omega) rs rs1 bytes hrd
            have hfl : rs.flatten.length = bytes.length + rs1.flatten.length := by
              rw [← hcat, List.length_append]
            have h := ih (g + 1) t { sc2 with held := sc2.held ++ bytes } rs1
              (by simp only; rw [heof]; exact he)
              (by simp only; rw [hheld, List.length_append]; omega)
              hcap
              (by simp only; rw [hheld, List.length_append]; omega)
              (by simp only; rw [hheld, List.append_assoc, hcat]; exact hg)
            simp only [hheld, List.append_assoc, hcat] at h
            exact h
      by_cases h4 : sc.held.length < 4
      · exact hread (tryToken_short t sc h4) (fun h => by omega)
      · have hrd : readUint32 (sc.held ++ rs.flatten) = readUint32 sc.held :=
          readUint32_append _ _ (by omega)
        by_cases hL : 1048576 < readUint32 sc.held
        · rw [scanLoop_succ, tryToken_big t sc (by omega) (by omega) hL,
            streamResult_big g t _ (by omega) (by rw [hrd]; exact hL)]
          cases Close t <;> rfl
        · by_cases hT : sc.held.length - 4 < readUint32 sc.held
          · refine hread (tryToken_wait t sc (by omega) (by omega) (by omega) hT) (fun h => ?_)
            exact streamResult_tooLong g t _ (by rw [hrd]; omega) (by rw [hrd]; omega)
              (by omega)
          · have hk : 4 + readUint32 sc.held ≤ sc.held.length := by omega
            rw [scanLoop_succ, tryToken_frame t sc (by omega) (by omega) (by omega),
              streamResult_frame g t _ (by rw [hrd]; omega) (by rw [hrd]; omega), hrd,
              List.take_append_of_le_length hk, List.drop_append_of_le_length hk]
            simp only
            cases t.scope with
            | none => rfl
            | some c =>
              cases c with
              | true => rfl
              | false =>
                simp only
                have hd : (sc.held.drop (4 + readUint32 sc.held)).length
                    = sc.held.length - (4 + readUint32 sc.held) := List.length_drop _ _
                refine ih g _ _ rs he ?_ hc ?_ ?_
                · simp only; omega
                · simp only; omega
                · simp only; rw [List.length_append]; omega

/-- The loop of `Scan` comes to what `streamResult` tells from the whole stream. -/
theorem scanReads_stream (g : Nat) (t : TCPConn) (reads : List (List Byte))
    (hg : reads.flatten.length < g) :
    scanReads t reads = streamResult g t reads.flatten := by
  have h := scanLoop_stream (2 * reads.flatten.length + 2) g t
    NewScanner reads rfl (Nat.le_refl _) (by decide)
    (by simp only [NewScanner, List.length_nil]; omega)
    (by simp only [NewScanner, List.nil_append]; exact hg)
  simp only [NewScanner, List.nil_append] at h
  exact h

/-- With more fuel than the stream has bytes, `streamResult` does not run out of
fuel. -/
theorem streamResult_fuel (g : Nat) : ∀ (t t1 : TCPConn) (s : List Byte), s.length < g →
    streamResult g t s ≠ some (t1, Stop.fuel) := by
  induction g with
  | zero => intro t t1 s h; omega
  | succ g ih =>
    intro t t1 s hg
    by_cases h4 : s.length < 4
    · rw [streamResult_short g t s h4]; simp
    · by_cases hL : 1048576 < readUint32 s
      · rw [streamResult_big g t s (by omega) hL]
        cases Close t <;> simp
      · by_cases hk : 4 + readUint32 s ≤ 65536
        · by_cases hT : 4 + readUint32 s ≤ s.length
          · rw [streamResult_frame g t s hk hT]
            cases t.scope with
            | none => simp
            | some c =>
              cases c with
              | true => simp
              | false =>
                simp only
                exact ih _ t1 _ (by rw [List.length_drop]; omega)
          · by_cases h64 : s.length < 65536
            · rw [streamResult_cut g t s (by omega) (by omega) (by omega) h64]; simp
            · omega
        · by_cases h64 : s.length < 65536
          · rw [streamResult_cut g t s (by omega) (by omega) (by omega) h64]; simp
          · rw [streamResult_tooLong g t s (by omega) (by omega) (by omega)]; simp

/-! ## Reads cut in different ways -/

theorem flatten_singletons (s : List Byte) : (s.map (fun b => [b])).flatten = s := by
  induction s with
  | nil => rfl
  | cons b s ih => rw [List.map_cons, List.flatten_cons, ih]; rfl

/-- C6 (partial-read resilience): for every box `t`, every byte stream `s` and
every two ways `cs1`, `cs2` of cutting `s` into the pieces that the reads of
the socket deliver, the read loop of `Scan` comes to the same result, the
same frames on the data channel in the same order and the same reason of the
halt, and so does `Scan`; the loop does not run out of the fuel of the model;
in particular the stream read one byte at a time gives what the stream in one
single piece gives. -/
theorem Scan_reads_cut_free (t : TCPConn) (s : List Byte) (cs1 cs2 : List (List Byte))
    (closeErr : Option String) (h1 : cs1.flatten = s) (h2 : cs2.flatten = s) :
    scanReads t cs1 = scanReads t cs2
      ∧ Scan t cs1 closeErr = Scan t cs2 closeErr
      ∧ (∀ t1, scanReads t cs1 ≠ some (t1, Stop.fuel))
      ∧ scanReads t (s.map (fun b => [b])) = scanReads t [s] := by
  have key : ∀ cs : List (List Byte), cs.flatten = s →
      scanReads t cs = streamResult (s.length + 1) t s := by
    intro cs hcs
    have h := scanReads_stream (s.length + 1) t cs (by rw [hcs]; exact Nat.lt_succ_self _)
    rw [hcs] at h
    exact h
  have e12 : scanReads t cs1 = scanReads t cs2 := by rw [key cs1 h1, key cs2 h2]
  refine ⟨e12, ?_, ?_, ?_⟩
  · simp only [Scan, e12]
  · intro t1
    rw [key cs1 h1]
    exact streamResult_fuel _ t t1 s (Nat.lt_succ_self _)
  · rw [key _ (flatten_singletons s), key [s] (by rw [List.flatten_cons, List.flatten_nil,
      List.append_nil])]

theorem Scan_reads_cut_free_witness :
    scanReads conn0 [[1], [0, 0], [0, 9, 0, 0, 0], [0, 2, 0], [0, 0, 5]]
        = scanReads conn0 [[1, 0, 0, 0, 9, 0, 0, 0, 0, 2, 0, 0, 0, 5]]
      ∧ Scan conn0 [[1], [0, 0], [0, 9, 0, 0, 0], [0, 2, 0], [0, 0, 5]] none
        = Scan conn0 [[1, 0, 0, 0, 9, 0, 0, 0, 0, 2, 0, 0, 0, 5]] none
      ∧ (∀ t1, scanReads conn0 [[1], [0, 0], [0, 9, 0, 0, 0], [0, 2, 0], [0, 0, 5]]
          ≠ some (t1, Stop.fuel))
      ∧ scanReads conn0 ([1, 0, 0, 0, 9, 0, 0, 0, 0, 2, 0, 0, 0, 5].map (fun b => [b]))
        = scanReads conn0 [[1, 0, 0, 0, 9, 0, 0, 0, 0, 2, 0, 0, 0, 5]] :=
  Scan_reads_cut_free conn0 [1, 0, 0, 0, 9, 0, 0, 0, 0, 2, 0, 0, 0, 5]
    [[1], [0, 0], [0, 9, 0, 0, 0], [0, 2, 0], [0, 0, 5]]
    [[1, 0, 0, 0, 9, 0, 0, 0, 0, 2, 0, 0, 0, 5]] none (by decide) (by decide)

/-! ## Ordering -/

end Gtcp
